import Mathlib

/-!
Shallow embedding of the deSEC DNS provider of dnscontrol
(providers/desec/desecProvider.go) and proofs about its reconciliation
logic: record normalization (PrepDesiredRecords), the correction planner
(GenerateDomainCorrections), provider construction (NewDeSec) and the
domain existence gate (EnsureDomainExists).

Modelling conventions:
  - Go slices and maps become Lean lists / association lists; a Go map is
    iterated in an unspecified order, so the planner takes the changed-key
    map as a list in an arbitrary iteration order and the theorems
    quantify over that order.
  - The external diff engine and the orchestrator's GroupedByKey are black
    boxes: the planner's embedding takes their outputs as inputs.
  - A Go panic is modelled as Except.error carrying the panic message.
  - Deferred correction closures are modelled as first-class Action values
    together with an explicit invocation function; a closure over the
    shared range variable of the planning loop (Go pre-1.22 semantics, as
    in dnscontrol v3) is modelled as a reference resolved at invocation
    time against the variable's final value.
-/

namespace DesecDNS

/-- The orchestrator's generic record (models.RecordConfig), restricted to
the fields this provider reads: record type (Go field Type), fully
qualified label (NameFQDN), TTL, and one string-encoded value (target). -/
structure RecordConfig where
  rtype : String
  nameFQDN : String
  ttl : Nat
  target : String
deriving Repr, DecidableEq

/-- A change-group key (models.RecordKey): fully qualified label plus
record type, the granularity at which the diff engine reports changes. -/
structure RecordKey where
  nameFQDN : String
  rtype : String
deriving Repr, DecidableEq

/-- The provider's native record set (resourceRecord): identity is
(subname, type); records is the complete value list, and an empty value
list together with a delete call removes the whole set.  The Go struct
literal used on the deletion path sets only Type, Subname and Records, so
ttl defaults to the Go zero value. -/
structure ResourceRecord where
  rtype : String
  subname : String
  records : List String
  ttl : Nat := 0
deriving Repr, DecidableEq

/-- A warning sent to printer.Warnf during normalization.  The alias
warning of the source is a fixed string; the TTL warning cites label,
type and the old TTL (the new one is always 3600). -/
inductive Warning where
  | aliasNotSupported : Warning
  | ttlRaised (labelFQDN : String) (rtype : String) (oldTTL : Nat) : Warning
deriving Repr, DecidableEq

/-- One iteration of the PrepDesiredRecords loop: an ALIAS record is
dropped with a warning; a record with TTL below 3600 is raised to 3600,
warning unless it is an NS record; anything else is kept unchanged. -/
def prepRecord (rec : RecordConfig) : Option RecordConfig × List Warning :=
  if rec.rtype = "ALIAS" then
    (none, [Warning.aliasNotSupported])
  else if rec.ttl < 3600 then
    (some { rec with ttl := 3600 },
     if rec.rtype = "NS" then [] else [Warning.ttlRaised rec.nameFQDN rec.rtype rec.ttl])
  else (some rec, [])

/-- PrepDesiredRecords: the capability normalizer.  It filters the desired
record list through prepRecord, keeping order, and collects the warnings.
(dc.Punycode(), an orchestrator helper, is the identity on the ASCII
labels modelled here.) -/
def PrepDesiredRecords : List RecordConfig → List RecordConfig × List Warning
  | [] => ([], [])
  | rec :: rest =>
    let tail := PrepDesiredRecords rest
    match prepRecord rec with
    | (none, w) => (tail.fst, w ++ tail.snd)
    | (some r, w) => (r :: tail.fst, w ++ tail.snd)

/-- PrepFoundRecords: the source returns its argument unchanged. -/
def PrepFoundRecords (recs : List RecordConfig) : List RecordConfig := recs

/-- dnsutil.TrimDomainName of the miekg/dns library, as the planner uses
it on fully qualified names without trailing dots: a name equal to the
origin becomes the apex marker "@"; a name ending in "." ++ origin has
that suffix stripped; any other name is returned unchanged. -/
def trimDomainName (s origin : String) : String :=
  if s = origin then "@"
  else if ('.' :: origin.data).length ≤ s.data.length ∧
      s.data.drop (s.data.length - ('.' :: origin.data).length) = ('.' :: origin.data) then
    String.mk (s.data.take (s.data.length - ('.' :: origin.data).length))
  else s

/-- What a correction's deferred Go closure does when invoked.  The delete
closure reads the planning loop's range variable label, which Go shares
across all iterations, so it is modelled as a reference resolved only at
invocation time; the upsert closure reads the iteration-local slice ns,
fixed when the closure is built. -/
inductive Action where
  | noop : Action
  | deleteSharedLabel : Action
  | upsert (ns : List ResourceRecord) : Action
deriving Repr, DecidableEq

/-- A correction (models.Correction): a message plus a deferred action. -/
structure Correction where
  msg : String
  action : Action
deriving Repr, DecidableEq

/-- A call issued to the remote API by an invoked correction action. -/
inductive ApiCall where
  | deleteRR (rc : ResourceRecord) (domain : String)
  | upsertRR (rc : ResourceRecord) (domain : String)
deriving Repr, DecidableEq

/-- Invocation of one correction's deferred action after the planning loop
has finished: sharedLabel is the value the shared range variable holds
then (the key of the last iteration).  Returns the API call issued, if
any; Except.error models the index-out-of-range panic of ns[0] on an
empty slice. -/
def invoke (sharedLabel : RecordKey) (dcName : String) :
    Action → Except String (Option ApiCall)
  | Action.noop => Except.ok none
  | Action.deleteSharedLabel =>
      let short := trimDomainName sharedLabel.nameFQDN dcName
      let short := if short = "@" then "" else short
      Except.ok (some (ApiCall.deleteRR
        { rtype := sharedLabel.rtype, subname := short, records := [] } dcName))
  | Action.upsert ns =>
      match ns with
      | [] => Except.error "index out of range"
      | rc :: _ => Except.ok (some (ApiCall.upsertRR rc dcName))

/-- The corrections the planning loop appends for a key that is absent
from the desired set: the first message is bound to the real delete
action, every further message to a no-op. -/
def deletionCorrections : List String → List Correction
  | [] => []
  | msg :: rest =>
      { msg := msg, action := Action.deleteSharedLabel } ::
        rest.map (fun m => { msg := m, action := Action.noop })

/-- The corrections the planning loop appends for a key that is present in
the desired set: the first message is bound to the real upsert action
(over the converted native sets ns), every further message to a no-op. -/
def upsertCorrections (ns : List ResourceRecord) : List String → List Correction
  | [] => []
  | msg :: rest =>
      { msg := msg, action := Action.upsert ns } ::
        rest.map (fun m => { msg := m, action := Action.noop })

/-- Lookup in the GroupedByKey map of the desired records, modelled as an
association list. -/
def lookupGroup (desired : List (RecordKey × List RecordConfig))
    (k : RecordKey) : Option (List RecordConfig) :=
  (desired.find? (fun p => p.fst == k)).map Prod.snd

/-- The message of the Go panic on the upsert path. -/
def panicMsg : String := "we got more than one resource record to create / modify"

/-- One iteration of the planning loop of GenerateDomainCorrections: the
corrections appended for one changed key, or the panic if the desired
records of a present key convert to more than one native record set.
r2n is the recordsToNative conversion, a parameter of the embedding. -/
def correctionsForKey (dcName : String)
    (desired : List (RecordKey × List RecordConfig))
    (r2n : List RecordConfig → String → List ResourceRecord)
    (label : RecordKey) (msgs : List String) : Except String (List Correction) :=
  match lookupGroup desired label with
  | none => Except.ok (deletionCorrections msgs)
  | some recs =>
      let ns := r2n recs dcName
      if ns.length > 1 then Except.error panicMsg
      else Except.ok (upsertCorrections ns msgs)

/-- The planning loop over the changed keys, in iteration order,
concatenating each key's corrections; a panic aborts the pass. -/
def planLoop (dcName : String) (desired : List (RecordKey × List RecordConfig))
    (r2n : List RecordConfig → String → List ResourceRecord) :
    List (RecordKey × List String) → Except String (List Correction)
  | [] => Except.ok []
  | (label, msgs) :: rest =>
      match correctionsForKey dcName desired r2n label msgs with
      | Except.error e => Except.error e
      | Except.ok block =>
          match planLoop dcName desired r2n rest with
          | Except.error e => Except.error e
          | Except.ok tail => Except.ok (block ++ tail)

/-- GenerateDomainCorrections: with no changed groups it returns the empty
correction list and no error; otherwise it runs the planning loop.
keysToUpdate is the changed-group map in its (arbitrary) iteration
order; desired is the GroupedByKey view of dc.Records. -/
def GenerateDomainCorrections (dcName : String)
    (desired : List (RecordKey × List RecordConfig))
    (r2n : List RecordConfig → String → List ResourceRecord)
    (keysToUpdate : List (RecordKey × List String)) :
    Except String (List Correction) :=
  if keysToUpdate.length = 0 then Except.ok []
  else planLoop dcName desired r2n keysToUpdate

/-- The value the shared range variable label holds once the planning loop
is done: the key of the last iteration.  Deferred actions run only after
planning, so this is the value every delete closure reads. -/
def finalLabel (keysToUpdate : List (RecordKey × List String)) : Option RecordKey :=
  keysToUpdate.getLast?.map Prod.fst

/-- Modelled from the spec: recordsToNative lives in the provider's
type-conversion file, which is not part of this source file.  Per the spec
it coalesces all generic records sharing one (label, type) into exactly
one native record set whose value list holds every record's value, with
the subname obtained by stripping the zone origin (apex becoming the
empty string, not the "@" marker). -/
def recordsToNative (recs : List RecordConfig) (origin : String) :
    List ResourceRecord :=
  match recs with
  | [] => []
  | r :: _ =>
      let short := trimDomainName r.nameFQDN origin
      [{ rtype := r.rtype,
         subname := if short = "@" then "" else short,
         records := recs.map (fun x => x.target),
         ttl := r.ttl }]

/-- The provider value NewDeSec builds on success: the credential plus the
domain index populated by the construction-time fetch. -/
structure Api where
  token : String
  domainIndex : List String
deriving Repr, DecidableEq

/-- Outcome of provider construction: the provider value or an error
message, plus whether the credential-validating network call
(fetchDomainList) was attempted. -/
structure ConstructOutcome where
  provider : Option Api
  err : Option String
  networkAttempted : Bool
deriving Repr, DecidableEq

/-- NewDeSec: reads the auth-token credential (a missing key of a Go map
reads as the empty string), fails immediately when it is empty, and
otherwise validates it with one fetchDomainList call whose outcome is the
fetchResult parameter. -/
def NewDeSec (creds : List (String × String))
    (fetchResult : Except String (List String)) : ConstructOutcome :=
  let token := ((creds.find? (fun p => p.fst == "auth-token")).map Prod.snd).getD ""
  if token = "" then
    { provider := none, err := some "missing deSEC auth-token", networkAttempted := false }
  else
    match fetchResult with
    | Except.error e => { provider := none, err := some e, networkAttempted := true }
    | Except.ok idx =>
        { provider := some { token := token, domainIndex := idx }, err := none,
          networkAttempted := true }

/-- The remote deSEC account state the domain calls run against: domains
is the account's zone list; fetchErr and createErr model transport
failures of the listing and creation calls. -/
structure Remote where
  domains : List String
  fetchErr : Option String := none
  createErr : Option String := none
deriving Repr, DecidableEq

/-- Modelled from the spec: fetchDomainList (in the provider's API file,
not in this source file) refreshes the domain index from the remote zone
list, propagating any transport error. -/
def fetchDomainList (r : Remote) : Except String (List String) :=
  match r.fetchErr with
  | some e => Except.error e
  | none => Except.ok r.domains

/-- Modelled from the spec: createDomain (in the provider's API file, not
in this source file) creates the zone remotely, propagating any creation
error unchanged; on success the account's zone list gains the domain. -/
def createDomain (r : Remote) (d : String) : Except String Remote :=
  match r.createErr with
  | some e => Except.error e
  | none => Except.ok { r with domains := d :: r.domains }

/-- EnsureDomainExists: refresh the domain index; return nil when the
domain is present; otherwise attempt creation and propagate its error.
Returns the result, the remote state afterwards, and whether a creation
call was attempted. -/
def EnsureDomainExists (r : Remote) (domain : String) :
    Except String Unit × Remote × Bool :=
  match fetchDomainList r with
  | Except.error e => (Except.error e, r, false)
  | Except.ok idx =>
      if domain ∈ idx then (Except.ok (), r, false)
      else
        match createDomain r domain with
        | Except.error e => (Except.error e, r, true)
        | Except.ok rNew => (Except.ok (), rNew, true)

/-! ### Helper lemmas about PrepDesiredRecords -/

/-- The warnings of a cons step are the record's warnings followed by the
rest's warnings. -/
theorem prep_snd_cons (rec : RecordConfig) (rest : List RecordConfig) :
    (PrepDesiredRecords (rec :: rest)).snd =
      (prepRecord rec).snd ++ (PrepDesiredRecords rest).snd := by
  rcases h : prepRecord rec with ⟨o, w⟩
  rcases h2 : PrepDesiredRecords rest with ⟨kept, warns⟩
  cases o <;> simp [PrepDesiredRecords, h, h2]

/-- Membership in the kept records: exactly the non-ALIAS inputs with the
TTL clamped from below to 3600. -/
theorem prep_fst_mem (recs : List RecordConfig) (r : RecordConfig) :
    r ∈ (PrepDesiredRecords recs).fst ↔
      ∃ r0, r0 ∈ recs ∧ r0.rtype ≠ "ALIAS" ∧
        r = { r0 with ttl := max r0.ttl 3600 } := by
  induction recs with
  | nil => simp [PrepDesiredRecords]
  | cons rec rest ih =>
    by_cases halias : rec.rtype = "ALIAS"
    · have hfst : (PrepDesiredRecords (rec :: rest)).fst =
          (PrepDesiredRecords rest).fst := by
        simp [PrepDesiredRecords, prepRecord, halias]
      rw [hfst, ih]
      constructor
      · rintro ⟨r0, hm, hne, heq⟩
        exact ⟨r0, List.mem_cons_of_mem _ hm, hne, heq⟩
      · rintro ⟨r0, hm, hne, heq⟩
        rcases List.mem_cons.mp hm with h | h
        · exact absurd (by rw [h]; exact halias) hne
        · exact ⟨r0, h, hne, heq⟩
    · by_cases httl : rec.ttl < 3600
      · have hfst : (PrepDesiredRecords (rec :: rest)).fst =
            { rec with ttl := 3600 } :: (PrepDesiredRecords rest).fst := by
          simp [PrepDesiredRecords, prepRecord, halias, httl]
        have hmax : max rec.ttl 3600 = 3600 := Nat.max_eq_right (Nat.le_of_lt httl)
        rw [hfst]
        constructor
        · intro hr
          rcases List.mem_cons.mp hr with h | h
          · exact ⟨rec, List.mem_cons_self _ _, halias, by rw [h, hmax]⟩
          · rcases ih.mp h with ⟨r0, hm, hne, heq⟩
            exact ⟨r0, List.mem_cons_of_mem _ hm, hne, heq⟩
        · rintro ⟨r0, hm, hne, heq⟩
          rcases List.mem_cons.mp hm with h | h
          · subst h
            exact List.mem_cons.mpr (Or.inl (by rw [heq, hmax]))
          · exact List.mem_cons_of_mem _ (ih.mpr ⟨r0, h, hne, heq⟩)
      · have hfst : (PrepDesiredRecords (rec :: rest)).fst =
            rec :: (PrepDesiredRecords rest).fst := by
          simp [PrepDesiredRecords, prepRecord, halias, httl]
        have hmax : max rec.ttl 3600 = rec.ttl :=
          Nat.max_eq_left (Nat.le_of_not_lt httl)
        have heta : ({ rec with ttl := max rec.ttl 3600 } : RecordConfig) = rec := by
          rw [hmax]
        rw [hfst]
        constructor
        · intro hr
          rcases List.mem_cons.mp hr with h | h
          · exact ⟨rec, List.mem_cons_self _ _, halias, by rw [h, heta]⟩
          · rcases ih.mp h with ⟨r0, hm, hne, heq⟩
            exact ⟨r0, List.mem_cons_of_mem _ hm, hne, heq⟩
        · rintro ⟨r0, hm, hne, heq⟩
          rcases List.mem_cons.mp hm with h | h
          · subst h
            exact List.mem_cons.mpr (Or.inl (by rw [heq, heta]))
          · exact List.mem_cons_of_mem _ (ih.mpr ⟨r0, h, hne, heq⟩)

/-- Membership in the warnings: some input record produced the warning. -/
theorem prep_snd_mem (recs : List RecordConfig) (w : Warning) :
    w ∈ (PrepDesiredRecords recs).snd ↔
      ∃ r, r ∈ recs ∧ w ∈ (prepRecord r).snd := by
  induction recs with
  | nil => simp [PrepDesiredRecords]
  | cons rec rest ih =>
    rw [prep_snd_cons, List.mem_append, ih]
    constructor
    · rintro (h | ⟨r, hm, hw⟩)
      · exact ⟨rec, List.mem_cons_self _ _, h⟩
      · exact ⟨r, List.mem_cons_of_mem _ hm, hw⟩
    · rintro ⟨r, hm, hw⟩
      rcases List.mem_cons.mp hm with h | h
      · exact Or.inl (by rw [← h]; exact hw)
      · exact Or.inr ⟨r, h, hw⟩

/-! ### Claim theorems for the capability normalizer and the trivial passes -/

/-- C10: PrepFoundRecords is the identity on the fetched record list —
same records, same order. -/
theorem prepFoundRecords_identity (recs : List RecordConfig) :
    PrepFoundRecords recs = recs := rfl

/-- C7: when the diff engine reports no changed groups,
GenerateDomainCorrections returns the empty correction list and no
error. -/
theorem empty_diff_no_corrections (dcName : String)
    (desired : List (RecordKey × List RecordConfig))
    (r2n : List RecordConfig → String → List ResourceRecord) :
    GenerateDomainCorrections dcName desired r2n [] = Except.ok [] := rfl

/-- C6: PrepDesiredRecords removes every ALIAS record — none appears in
the normalized set — recording one warning per dropped record, and keeps
every record of any other type (with its TTL clamped to the floor). -/
theorem alias_filtering (recs : List RecordConfig) :
    (∀ r ∈ (PrepDesiredRecords recs).fst, r.rtype ≠ "ALIAS") ∧
    ((PrepDesiredRecords recs).snd.count Warning.aliasNotSupported =
      (recs.filter (fun r => r.rtype == "ALIAS")).length) ∧
    (∀ r ∈ recs, r.rtype ≠ "ALIAS" →
      { r with ttl := max r.ttl 3600 } ∈ (PrepDesiredRecords recs).fst) := by
  refine ⟨?_, ?_, ?_⟩
  · intro r hr
    rcases (prep_fst_mem recs r).mp hr with ⟨r0, _, hne, heq⟩
    rw [heq]
    exact hne
  · induction recs with
    | nil => simp [PrepDesiredRecords]
    | cons rec rest ih =>
      rw [prep_snd_cons, List.count_append]
      by_cases halias : rec.rtype = "ALIAS"
      · simp [prepRecord, halias, ih]
        omega
      · by_cases httl : rec.ttl < 3600
        · by_cases hns : rec.rtype = "NS" <;>
            simp [prepRecord, halias, httl, hns, ih]
        · simp [prepRecord, halias, httl, ih]
  · intro r hm hne
    exact (prep_fst_mem recs _).mpr ⟨r, hm, hne, rfl⟩

/-- C3 counterexample: an NS record is NOT exempt from the minimum-TTL
enforcement — PrepDesiredRecords raises an NS record with TTL 300 to TTL
3600 (only the warning is skipped), so its TTL does not stay 300. -/
theorem ns_ttl_not_exempt_cex :
    (PrepDesiredRecords
        [{ rtype := "NS", nameFQDN := "sub.example.org", ttl := 300,
           target := "ns9.example.net." }]).fst.map (fun r => r.ttl) = [3600] ∧
    (PrepDesiredRecords
        [{ rtype := "NS", nameFQDN := "sub.example.org", ttl := 300,
           target := "ns9.example.net." }]).fst.map (fun r => r.ttl) ≠ [300] ∧
    (PrepDesiredRecords
        [{ rtype := "NS", nameFQDN := "sub.example.org", ttl := 300,
           target := "ns9.example.net." }]).snd = [] := by
  refine ⟨rfl, by decide, rfl⟩

/-- C3 amended: after PrepDesiredRecords every kept record has TTL at
least 3600; every non-ALIAS record with TTL below 3600 — NS records
included — is kept with TTL exactly 3600, with a warning recorded unless
it is an NS record; records with TTL at least 3600 are kept unchanged;
and no TTL warning is ever recorded for an NS record. -/
theorem ttl_floor_amended (recs : List RecordConfig) :
    (∀ r ∈ (PrepDesiredRecords recs).fst, 3600 ≤ r.ttl) ∧
    (∀ r ∈ recs, r.rtype ≠ "ALIAS" → r.ttl < 3600 →
      ({ r with ttl := 3600 } ∈ (PrepDesiredRecords recs).fst ∧
       (r.rtype ≠ "NS" →
         Warning.ttlRaised r.nameFQDN r.rtype r.ttl ∈ (PrepDesiredRecords recs).snd))) ∧
    (∀ r ∈ recs, r.rtype ≠ "ALIAS" → 3600 ≤ r.ttl →
      r ∈ (PrepDesiredRecords recs).fst) ∧
    (∀ l t o, Warning.ttlRaised l t o ∈ (PrepDesiredRecords recs).snd →
      t ≠ "NS" ∧ o < 3600) := by
  refine ⟨?_, ?_, ?_, ?_⟩
  · intro r hr
    rcases (prep_fst_mem recs r).mp hr with ⟨r0, _, _, heq⟩
    rw [heq]
    exact Nat.le_max_right _ _
  · intro r hm hne httl
    constructor
    · have hmax : max r.ttl 3600 = 3600 := Nat.max_eq_right (Nat.le_of_lt httl)
      have := (prep_fst_mem recs _).mpr ⟨r, hm, hne, rfl⟩
      rwa [hmax] at this
    · intro hns
      refine (prep_snd_mem recs _).mpr ⟨r, hm, ?_⟩
      simp [prepRecord, hne, httl, hns]
  · intro r hm hne httl
    have hmax : max r.ttl 3600 = r.ttl := Nat.max_eq_left httl
    have := (prep_fst_mem recs _).mpr ⟨r, hm, hne, rfl⟩
    rwa [hmax] at this
  · intro l t o hmem
    rcases (prep_snd_mem recs _).mp hmem with ⟨r, _, hw⟩
    by_cases halias : r.rtype = "ALIAS"
    · simp [prepRecord, halias] at hw
    · by_cases httl : r.ttl < 3600
      · by_cases hns : r.rtype = "NS"
        · simp [prepRecord, halias, httl, hns] at hw
        · simp [prepRecord, halias, httl, hns] at hw
          rcases hw with ⟨_, ht, ho⟩
          constructor
          · rw [ht]; exact hns
          · rw [ho]; exact httl
      · simp [prepRecord, halias, httl] at hw

/-! ### Helper lemmas about the correction planner -/

/-- The only error one planning step can raise is the invariant-violation
panic of the upsert path. -/
theorem correctionsForKey_error (dcName : String)
    (desired : List (RecordKey × List RecordConfig))
    (r2n : List RecordConfig → String → List ResourceRecord)
    (label : RecordKey) (msgs : List String) (e : String)
    (h : correctionsForKey dcName desired r2n label msgs = Except.error e) :
    e = panicMsg := by
  simp only [correctionsForKey] at h
  cases hl : lookupGroup desired label with
  | none => simp [hl] at h
  | some recs =>
      simp only [hl] at h
      by_cases hlen : (r2n recs dcName).length > 1
      · rw [if_pos hlen] at h
        injection h with h
        exact h.symm
      · rw [if_neg hlen] at h
        cases h

/-- Whenever a key appears in the changed-key list and the loop succeeds,
the returned corrections contain that key's block contiguously. -/
theorem planLoop_decomp (dcName : String)
    (desired : List (RecordKey × List RecordConfig))
    (r2n : List RecordConfig → String → List ResourceRecord)
    (keys : List (RecordKey × List String)) (k : RecordKey)
    (msgs : List String) (corrs : List Correction)
    (hok : planLoop dcName desired r2n keys = Except.ok corrs)
    (hmem : (k, msgs) ∈ keys) :
    ∃ block pre post,
      correctionsForKey dcName desired r2n k msgs = Except.ok block ∧
      corrs = pre ++ block ++ post := by
  induction keys generalizing corrs with
  | nil => cases hmem
  | cons head rest ih =>
    rcases head with ⟨k0, m0⟩
    simp only [planLoop] at hok
    cases hcfk : correctionsForKey dcName desired r2n k0 m0 with
    | error e => rw [hcfk] at hok; cases hok
    | ok block0 =>
        rw [hcfk] at hok
        cases hpl : planLoop dcName desired r2n rest with
        | error e => rw [hpl] at hok; cases hok
        | ok tl =>
            rw [hpl] at hok
            injection hok with hok
            rcases List.mem_cons.mp hmem with heq | hmem2
            · injection heq with h1 h2
              subst h1; subst h2
              exact ⟨block0, [], tl, hcfk, by simp [hok]⟩
            · rcases ih tl hpl hmem2 with ⟨block, pre, post, hcfk2, htl⟩
              refine ⟨block, block0 ++ pre, post, hcfk2, ?_⟩
              rw [← hok, htl]
              simp [List.append_assoc]

/-- A panic raised for any key of the changed-key list aborts the whole
planning loop with that panic. -/
theorem planLoop_error (dcName : String)
    (desired : List (RecordKey × List RecordConfig))
    (r2n : List RecordConfig → String → List ResourceRecord)
    (keys : List (RecordKey × List String)) (k : RecordKey)
    (msgs : List String)
    (hmem : (k, msgs) ∈ keys)
    (herr : correctionsForKey dcName desired r2n k msgs = Except.error panicMsg) :
    planLoop dcName desired r2n keys = Except.error panicMsg := by
  induction keys with
  | nil => cases hmem
  | cons head rest ih =>
    rcases head with ⟨k0, m0⟩
    rcases List.mem_cons.mp hmem with heq | hmem2
    · injection heq with h1 h2
      subst h1; subst h2
      simp only [planLoop, herr]
    · cases hcfk : correctionsForKey dcName desired r2n k0 m0 with
      | error e =>
          have he : e = panicMsg :=
            correctionsForKey_error dcName desired r2n k0 m0 e hcfk
          subst he
          simp only [planLoop, hcfk]
      | ok block0 =>
          simp only [planLoop, hcfk, ih hmem2]

/-! ### Claim theorems for the correction planner -/

/-- C2: for a changed key absent from the desired set whose diff reports
the K messages m :: ms, the planner emits a contiguous block of exactly K
corrections carrying those messages in order; the first carries the real
delete action and each of the other K−1 a no-op action whose invocation
issues no API call and returns nil. -/
theorem deletion_dedup (dcName : String)
    (desired : List (RecordKey × List RecordConfig))
    (r2n : List RecordConfig → String → List ResourceRecord)
    (keys : List (RecordKey × List String)) (k : RecordKey)
    (m : String) (ms : List String) (corrs : List Correction)
    (hmem : (k, m :: ms) ∈ keys)
    (habs : lookupGroup desired k = none)
    (hok : GenerateDomainCorrections dcName desired r2n keys = Except.ok corrs) :
    ∃ pre block post,
      corrs = pre ++ block ++ post ∧
      block.length = (m :: ms).length ∧
      block.map Correction.msg = m :: ms ∧
      block.head? = some { msg := m, action := Action.deleteSharedLabel } ∧
      (∀ c ∈ block.tail, c.action = Action.noop) ∧
      (∀ sl, invoke sl dcName Action.noop = Except.ok none) := by
  have hkeys : ¬keys.length = 0 := by
    intro h
    rw [List.length_eq_zero] at h
    subst h; cases hmem
  rw [GenerateDomainCorrections, if_neg hkeys] at hok
  rcases planLoop_decomp dcName desired r2n keys k (m :: ms) corrs hok hmem with
    ⟨block, pre, post, hcfk, hsplit⟩
  have hblock : block = deletionCorrections (m :: ms) := by
    simp only [correctionsForKey, habs] at hcfk
    injection hcfk with h
    exact h.symm
  subst hblock
  refine ⟨pre, deletionCorrections (m :: ms), post, hsplit, ?_, ?_, rfl, ?_, fun sl => rfl⟩
  · simp [deletionCorrections]
  · simp [deletionCorrections, List.map_map, Function.comp_def]
  · intro c hc
    simp only [deletionCorrections, List.tail_cons, List.mem_map] at hc
    rcases hc with ⟨s, _, rfl⟩
    rfl

/-- C4: a nonempty desired group converts to exactly one native record
set (recordsToNative, modelled from the spec), and whenever the records
of a changed key present in the desired set convert to more than one
native record set the whole correction-generation pass aborts with the
invariant-violation panic, returning no corrections at all. -/
theorem upsert_invariant_abort
    (recs : List RecordConfig) (origin : String) (hne : recs ≠ [])
    (dcName : String) (desired : List (RecordKey × List RecordConfig))
    (r2n : List RecordConfig → String → List ResourceRecord)
    (keys : List (RecordKey × List String)) (k : RecordKey)
    (msgs : List String) (grp : List RecordConfig)
    (hmem : (k, msgs) ∈ keys)
    (hgrp : lookupGroup desired k = some grp)
    (hlen : 1 < (r2n grp dcName).length) :
    (recordsToNative recs origin).length = 1 ∧
    GenerateDomainCorrections dcName desired r2n keys = Except.error panicMsg := by
  constructor
  · cases recs with
    | nil => exact absurd rfl hne
    | cons r rest => rfl
  · have hkeys : ¬keys.length = 0 := by
      intro h
      rw [List.length_eq_zero] at h
      subst h; cases hmem
    rw [GenerateDomainCorrections, if_neg hkeys]
    apply planLoop_error dcName desired r2n keys k msgs hmem
    simp only [correctionsForKey, hgrp]
    rw [if_pos hlen]

/-! ### Helper lemmas about label translation -/

/-- Stripping the zone suffix: trimming a name of the form
sub ++ "." ++ origin against origin yields sub. -/
theorem trimDomainName_append (sub origin : String) :
    trimDomainName (sub ++ ("." ++ origin)) origin = sub := by
  have hdata : (sub ++ ("." ++ origin)).data = sub.data ++ ('.' :: origin.data) := by
    simp [String.data_append]
  have hne : sub ++ ("." ++ origin) ≠ origin := by
    intro h
    have h2 := congrArg (fun t : String => t.data.length) h
    simp only [hdata, List.length_append, List.length_cons] at h2
    omega
  have hsub : (sub ++ ("." ++ origin)).data.length - ('.' :: origin.data).length
      = sub.data.length := by
    simp [hdata, List.length_append]
  have hdrop : (sub ++ ("." ++ origin)).data.drop
      ((sub ++ ("." ++ origin)).data.length - ('.' :: origin.data).length)
      = ('.' :: origin.data) := by
    rw [hsub, hdata]
    exact List.drop_left sub.data ('.' :: origin.data)
  have hle : ('.' :: origin.data).length ≤ (sub ++ ("." ++ origin)).data.length := by
    simp [hdata, List.length_append]
  have htake : (sub ++ ("." ++ origin)).data.take
      ((sub ++ ("." ++ origin)).data.length - ('.' :: origin.data).length) = sub.data := by
    rw [hsub, hdata]
    exact List.take_left sub.data ('.' :: origin.data)
  unfold trimDomainName
  rw [if_neg hne, if_pos ⟨hle, hdrop⟩, htake]

/-! ### Claim theorems for label translation and the capture bug -/

/-- C1: with two groups deleted in one planning pass, every emitted delete
correction reads the planning loop's shared range variable only at
invocation time, so the first group's delete action issues the call for
the LAST visited key (subname "del2"), not for its own key ("del1"): the
deferred actions do not close over independent copies of their keys. -/
theorem deleteActions_capture_lastKey :
    GenerateDomainCorrections "example.org" [] (fun _ _ => [])
        [(⟨"del1.example.org", "A"⟩, ["m1"]), (⟨"del2.example.org", "A"⟩, ["m2"])] =
      Except.ok [{ msg := "m1", action := Action.deleteSharedLabel },
        { msg := "m2", action := Action.deleteSharedLabel }] ∧
    finalLabel [(⟨"del1.example.org", "A"⟩, ["m1"]), (⟨"del2.example.org", "A"⟩, ["m2"])] =
      some ⟨"del2.example.org", "A"⟩ ∧
    invoke ⟨"del2.example.org", "A"⟩ "example.org" Action.deleteSharedLabel =
      Except.ok (some (ApiCall.deleteRR
        { rtype := "A", subname := "del2", records := [] } "example.org")) ∧
    trimDomainName "del1.example.org" "example.org" = "del1" ∧
    ("del2" : String) ≠ "del1" :=
  ⟨rfl, rfl, rfl, rfl, by decide⟩

/-- C5 counterexample: with two deleted groups in one pass, the subname
passed to the delete call invoked for the first group's correction is the
last group's stripped name "bb", not the group's own name "aa" — the
subname passed to the delete call is not always the key's own stripped
name. -/
theorem delete_subname_wrong_key_cex :
    GenerateDomainCorrections "zone.example" [] (fun _ _ => [])
        [(⟨"aa.zone.example", "TXT"⟩, ["ma"]), (⟨"bb.zone.example", "TXT"⟩, ["mb"])] =
      Except.ok [{ msg := "ma", action := Action.deleteSharedLabel },
        { msg := "mb", action := Action.deleteSharedLabel }] ∧
    finalLabel [(⟨"aa.zone.example", "TXT"⟩, ["ma"]), (⟨"bb.zone.example", "TXT"⟩, ["mb"])] =
      some ⟨"bb.zone.example", "TXT"⟩ ∧
    invoke ⟨"bb.zone.example", "TXT"⟩ "zone.example" Action.deleteSharedLabel =
      Except.ok (some (ApiCall.deleteRR
        { rtype := "TXT", subname := "bb", records := [] } "zone.example")) ∧
    ("bb" : String) ≠ "aa" :=
  ⟨rfl, rfl, rfl, by decide⟩

/-- C5 amended: the subname of a delete call is computed at invocation
time from the key the shared loop variable then holds; whenever the
deleted key is the one so held (in particular whenever it is the last or
the only deleted group), the call carries that key's record type and its
fully qualified name with the zone suffix stripped, the zone apex maps to
the empty-string subname, and the subname is never the literal "@". -/
theorem label_translation_amended (dcName : String)
    (desired : List (RecordKey × List RecordConfig))
    (r2n : List RecordConfig → String → List ResourceRecord)
    (keys : List (RecordKey × List String)) (k : RecordKey)
    (m : String) (ms : List String) (corrs : List Correction)
    (hmem : (k, m :: ms) ∈ keys)
    (habs : lookupGroup desired k = none)
    (hlast : finalLabel keys = some k)
    (hok : GenerateDomainCorrections dcName desired r2n keys = Except.ok corrs) :
    ∃ pre post rc,
      corrs = pre ++ ({ msg := m, action := Action.deleteSharedLabel } :: post) ∧
      invoke k dcName Action.deleteSharedLabel =
        Except.ok (some (ApiCall.deleteRR rc dcName)) ∧
      rc.rtype = k.rtype ∧
      rc.records = [] ∧
      (k.nameFQDN = dcName → rc.subname = "") ∧
      (∀ sub : String, sub ≠ "@" → k.nameFQDN = sub ++ ("." ++ dcName) →
        rc.subname = sub) ∧
      rc.subname ≠ "@" := by
  have hkeys : ¬keys.length = 0 := by
    intro h
    rw [List.length_eq_zero] at h
    subst h; cases hmem
  rw [GenerateDomainCorrections, if_neg hkeys] at hok
  rcases planLoop_decomp dcName desired r2n keys k (m :: ms) corrs hok hmem with
    ⟨block, pre, post, hcfk, hsplit⟩
  have hblock : block = deletionCorrections (m :: ms) := by
    simp only [correctionsForKey, habs] at hcfk
    injection hcfk with h
    exact h.symm
  subst hblock
  refine ⟨pre, (ms.map fun s => { msg := s, action := Action.noop }) ++ post,
    { rtype := k.rtype,
      subname := if trimDomainName k.nameFQDN dcName = "@" then ""
        else trimDomainName k.nameFQDN dcName,
      records := [] }, ?_, rfl, rfl, rfl, ?_, ?_, ?_⟩
  · rw [hsplit]
    simp [deletionCorrections, List.append_assoc]
  · intro h
    have ht : trimDomainName k.nameFQDN dcName = "@" := by
      simp [trimDomainName, h]
    simp [ht]
  · intro sub hsubne hname
    have ht : trimDomainName k.nameFQDN dcName = sub := by
      rw [hname]
      exact trimDomainName_append sub dcName
    simp only [ht, if_neg hsubne]
  · by_cases h : trimDomainName k.nameFQDN dcName = "@"
    · simp only [h, if_pos rfl]
      decide
    · simp only [if_neg h]
      exact h

/-! ### Claim theorems for construction and the domain existence gate -/

/-- C8: construction with a missing or empty auth-token credential fails
immediately: the fixed error is returned, no provider value is produced,
and the credential-validating network call is never attempted, whatever
that call would have returned. -/
theorem missing_token_fails (creds : List (String × String))
    (fetchResult : Except String (List String))
    (h : ∀ v, ("auth-token", v) ∈ creds → v = "") :
    NewDeSec creds fetchResult =
      { provider := none, err := some "missing deSEC auth-token",
        networkAttempted := false } := by
  have htok : ((creds.find? (fun p => p.fst == "auth-token")).map Prod.snd).getD "" = "" := by
    cases hf : creds.find? (fun p => p.fst == "auth-token") with
    | none => rfl
    | some p =>
        have hmem : p ∈ creds := List.mem_of_find?_eq_some hf
        have hp := List.find?_some hf
        have hfst : p.fst = "auth-token" := by simpa using hp
        have hsnd : p.snd = "" := by
          apply h
          have hmem2 : (p.fst, p.snd) ∈ creds := by simpa using hmem
          rwa [hfst] at hmem2
        simp [hsnd]
  simp [NewDeSec, htok]

/-- C9: with the domain listing reachable, EnsureDomainExists returns nil
without attempting creation when the domain is in the refreshed index;
when the domain is absent it attempts creation, propagating a creation
error unchanged and succeeding when creation succeeds; and it is safe to
call repeatedly: after any successful call a second call returns nil
without attempting creation. -/
theorem ensure_domain_idempotent (r : Remote) (d : String)
    (hfetch : r.fetchErr = none) :
    (d ∈ r.domains →
      EnsureDomainExists r d = (Except.ok (), r, false)) ∧
    (d ∉ r.domains → ∀ e, r.createErr = some e →
      EnsureDomainExists r d = (Except.error e, r, true)) ∧
    (d ∉ r.domains → r.createErr = none →
      EnsureDomainExists r d =
        (Except.ok (), { r with domains := d :: r.domains }, true)) ∧
    (∀ r2 b, EnsureDomainExists r d = (Except.ok (), r2, b) →
      EnsureDomainExists r2 d = (Except.ok (), r2, false)) := by
  have hfl : fetchDomainList r = Except.ok r.domains := by
    simp [fetchDomainList, hfetch]
  refine ⟨?_, ?_, ?_, ?_⟩
  · intro hmem
    simp [EnsureDomainExists, hfl, hmem]
  · intro hnot e hce
    simp [EnsureDomainExists, hfl, hnot, createDomain, hce]
  · intro hnot hce
    simp [EnsureDomainExists, hfl, hnot, createDomain, hce]
  · intro r2 b hcall
    by_cases hmem : d ∈ r.domains
    · simp [EnsureDomainExists, hfl, hmem] at hcall
      obtain ⟨h1, h2⟩ := hcall
      subst h1
      simp [EnsureDomainExists, hfl, hmem]
    · cases hce : r.createErr with
      | some e =>
          simp [EnsureDomainExists, hfl, hmem, createDomain, hce] at hcall
      | none =>
          simp [EnsureDomainExists, hfl, hmem, createDomain, hce] at hcall
          obtain ⟨h1, h2⟩ := hcall
          subst h1
          simp [EnsureDomainExists, fetchDomainList, hfetch]

/-! ### Witnesses: the claim theorems applied at concrete inputs -/

/-- Witness for C2 at a concrete deleted group with two diff messages. -/
theorem deletion_dedup_witness :
    ∃ pre block post,
      ([{ msg := "d1", action := Action.deleteSharedLabel },
        { msg := "d2", action := Action.noop }] : List Correction) =
          pre ++ block ++ post ∧
      block.length = (["d1", "d2"] : List String).length ∧
      block.map Correction.msg = ["d1", "d2"] ∧
      block.head? = some { msg := "d1", action := Action.deleteSharedLabel } ∧
      (∀ c ∈ block.tail, c.action = Action.noop) ∧
      (∀ sl, invoke sl "example.org" Action.noop = Except.ok none) :=
  deletion_dedup "example.org" [] (fun _ _ => [])
    [(⟨"gone.example.org", "TXT"⟩, ["d1", "d2"])] ⟨"gone.example.org", "TXT"⟩
    "d1" ["d2"]
    [{ msg := "d1", action := Action.deleteSharedLabel },
     { msg := "d2", action := Action.noop }]
    (List.mem_singleton.mpr rfl) rfl rfl

/-- Witness for C4 at a concrete changed key whose conversion is forced to
yield two native record sets. -/
theorem upsert_invariant_abort_witness :
    (recordsToNative
        [{ rtype := "A", nameFQDN := "www.zone.example", ttl := 3600,
           target := "1.2.3.4" }] "zone.example").length = 1 ∧
    GenerateDomainCorrections "zone.example"
        [(⟨"www.zone.example", "A"⟩,
          [{ rtype := "A", nameFQDN := "www.zone.example", ttl := 3600,
             target := "1.2.3.4" }])]
        (fun _ _ => [{ rtype := "A", subname := "www", records := ["1.2.3.4"] },
          { rtype := "A", subname := "www", records := ["5.6.7.8"] }])
        [(⟨"www.zone.example", "A"⟩, ["m"])] = Except.error panicMsg :=
  upsert_invariant_abort
    [{ rtype := "A", nameFQDN := "www.zone.example", ttl := 3600,
       target := "1.2.3.4" }] "zone.example" (by simp)
    "zone.example"
    [(⟨"www.zone.example", "A"⟩,
      [{ rtype := "A", nameFQDN := "www.zone.example", ttl := 3600,
         target := "1.2.3.4" }])]
    (fun _ _ => [{ rtype := "A", subname := "www", records := ["1.2.3.4"] },
      { rtype := "A", subname := "www", records := ["5.6.7.8"] }])
    [(⟨"www.zone.example", "A"⟩, ["m"])] ⟨"www.zone.example", "A"⟩ ["m"]
    [{ rtype := "A", nameFQDN := "www.zone.example", ttl := 3600,
       target := "1.2.3.4" }]
    (List.mem_singleton.mpr rfl) rfl (by decide)

/-- Witness for the amended C5 at a concrete single deleted group. -/
theorem label_translation_amended_witness :
    ∃ pre post rc,
      ([{ msg := "mb", action := Action.deleteSharedLabel }] : List Correction) =
        pre ++ ({ msg := "mb", action := Action.deleteSharedLabel } :: post) ∧
      invoke ⟨"bb.zone.example", "TXT"⟩ "zone.example" Action.deleteSharedLabel =
        Except.ok (some (ApiCall.deleteRR rc "zone.example")) ∧
      rc.rtype = "TXT" ∧
      rc.records = [] ∧
      (("bb.zone.example" : String) = "zone.example" → rc.subname = "") ∧
      (∀ sub : String, sub ≠ "@" →
        ("bb.zone.example" : String) = sub ++ ("." ++ "zone.example") →
        rc.subname = sub) ∧
      rc.subname ≠ "@" :=
  label_translation_amended "zone.example" [] (fun _ _ => [])
    [(⟨"bb.zone.example", "TXT"⟩, ["mb"])] ⟨"bb.zone.example", "TXT"⟩ "mb" []
    [{ msg := "mb", action := Action.deleteSharedLabel }]
    (List.mem_singleton.mpr rfl) rfl rfl rfl

/-- Witness for C8 at concrete credentials without an auth-token entry. -/
theorem missing_token_fails_witness :
    NewDeSec [] (Except.ok ["zone.example"]) =
      { provider := none, err := some "missing deSEC auth-token",
        networkAttempted := false } :=
  missing_token_fails [] (Except.ok ["zone.example"]) (by simp)

/-- Witness for C9 at a concrete remote account without the domain. -/
theorem ensure_domain_idempotent_witness :
    (("zone.example" : String) ∈ ({ domains := [] } : Remote).domains →
      EnsureDomainExists { domains := [] } "zone.example" =
        (Except.ok (), { domains := [] }, false)) ∧
    (("zone.example" : String) ∉ ({ domains := [] } : Remote).domains →
      ∀ e, ({ domains := [] } : Remote).createErr = some e →
      EnsureDomainExists { domains := [] } "zone.example" =
        (Except.error e, { domains := [] }, true)) ∧
    (("zone.example" : String) ∉ ({ domains := [] } : Remote).domains →
      ({ domains := [] } : Remote).createErr = none →
      EnsureDomainExists { domains := [] } "zone.example" =
        (Except.ok (),
         { ({ domains := [] } : Remote) with domains := ["zone.example"] }, true)) ∧
    (∀ r2 b, EnsureDomainExists { domains := [] } "zone.example" =
        (Except.ok (), r2, b) →
      EnsureDomainExists r2 "zone.example" = (Except.ok (), r2, false)) :=
  ensure_domain_idempotent { domains := [] } "zone.example" rfl

end DesecDNS
